import Mathlib

/-!
Verification of the MADR (Markdown Architectural Decision Record) parser,
a shallow embedding of `src/madr_parser/madr_parser.py`.

The Markdown-to-AST step is an external collaborator (mistune); we model its
output as a tree of `Node`s carrying a type tag, a heading level, raw leaf
text and children, matching the dictionary fields the Python code reads
(`type`, `attrs.level`, `raw`, `children`).  Children are stored in
`NodeList`, a copy of `List` made mutual with `Node` so that recursion over
the tree is structural.
-/

mutual
/-- One mistune AST token, as read by the parser: the `type` string, the
`attrs.level` value (meaningful only for headings; `0` elsewhere), the
`raw` leaf text (`""` when absent) and the child nodes (`NodeList.nil`
models both a missing and an empty `children` field, which Python
truthiness test `if not children` identifies). -/
inductive Node where
  | mk (ntype : String) (level : Nat) (raw : String) (children : NodeList)

/-- A list of AST nodes (child sequence of a node). -/
inductive NodeList where
  | nil
  | cons (head : Node) (tail : NodeList)
end

/-- The `type` field of a node. -/
def Node.ntype : Node → String
  | .mk t _ _ _ => t

/-- The `attrs.level` field of a node. -/
def Node.level : Node → Nat
  | .mk _ l _ _ => l

/-- The `raw` field of a node (empty string when the dict has none). -/
def Node.raw : Node → String
  | .mk _ _ r _ => r

/-- Convert a child sequence to an ordinary list. -/
def NodeList.toList : NodeList → List Node
  | .nil => []
  | .cons n ns => n :: ns.toList

/-- Build a child sequence from an ordinary list. -/
def NodeList.ofList : List Node → NodeList
  | [] => .nil
  | n :: ns => .cons n (NodeList.ofList ns)

/-- The `children` field of a node, as an ordinary list. -/
def Node.children : Node → List Node
  | .mk _ _ _ cs => cs.toList

/-- Build a node from its four fields, children given as an ordinary list. -/
def Node.make (ntype : String) (level : Nat) (raw : String)
    (children : List Node) : Node :=
  .mk ntype level raw (NodeList.ofList children)

namespace MADRParser

/-- Python `str.strip()` with default argument: remove leading and
trailing whitespace (spelled out over the character list so that it
evaluates by kernel reduction). -/
def strip (s : String) : String :=
  ⟨((s.data.dropWhile Char.isWhitespace).reverse.dropWhile
      Char.isWhitespace).reverse⟩

mutual
/-- Embeds `MADRParser._extract_text`: a node without (truthy) children
yields its `raw` string; otherwise the extracted texts of the children are
concatenated and the concatenation is stripped. -/
def extract_text : Node → String
  | .mk _ _ raw .nil => raw
  | .mk _ _ _ (.cons c cs) => strip (extract_text c ++ extract_text_nl cs)

/-- Concatenation of the extracted texts of a child sequence
(the `"".join(parts)` step of `_extract_text`). -/
def extract_text_nl : NodeList → String
  | .nil => ""
  | .cons n ns => extract_text n ++ extract_text_nl ns
end

/-- Embeds `MADRParser._extract_title`: the flattened text of the first
level-1 heading of the top-level node sequence; `none` models the
`ValueError` raised when no such heading exists. -/
def extract_title : List Node → Option String
  | [] => none
  | n :: ns =>
    if n.ntype = "heading" ∧ n.level = 1 then some (extract_text n)
    else extract_title ns

/-- Embeds `MADRParser._extract_nodes_text`: newline-join of the non-empty
extracted texts of the nodes, then trimmed. -/
def extract_nodes_text (nodes : List Node) : String :=
  strip (String.intercalate "\n"
    ((nodes.map extract_text).filter (fun s => s ≠ "")))

/-- The texts of the items of one `list` node: for each list item,
`_extract_nodes_text` of its children. -/
def listItemTexts (items : List Node) : List String :=
  items.map (fun item => extract_nodes_text item.children)

/-- The item texts collected from the `list` nodes of a bucket, in document
order (the `items` accumulator of `MADRParser._extract_list`). -/
def collectItems : List Node → List String
  | [] => []
  | n :: ns =>
    (if n.ntype = "list" then listItemTexts n.children else []) ++
      collectItems ns

/-- Embeds `MADRParser._extract_list`: the collected item texts, or `none`
when there are none (`items or None`). -/
def extract_list (nodes : List Node) : Option (List String) :=
  if collectItems nodes = [] then none else some (collectItems nodes)

/-- A normalized section value: free text or a list of item strings. -/
inductive SectionValue where
  | text (s : String)
  | list (l : List String)
deriving DecidableEq, Repr

/-- Lookup in an association list by key, first match
(Python dict read `m[k]` / `m.get(k)`). -/
def lookupMap {α : Type} : List (String × α) → String → Option α
  | [], _ => none
  | p :: ps, k => if p.1 = k then some p.2 else lookupMap ps k

/-- Association-list update with Python dict assignment semantics
(`m[k] = v`): replace in place when the key exists, else append. -/
def updateMap {α : Type} (m : List (String × α)) (k : String) (v : α) :
    List (String × α) :=
  if (lookupMap m k).isSome then
    m.map (fun p => if p.1 = k then (p.1, v) else p)
  else m ++ [(k, v)]

/-- The flush step of `MADRParser._extract_sections`
(`if current_section: sections[current_section] = buffer`): Python
truthiness makes both `None` and `""` inactive, modelled by `cur = ""`. -/
def flushSection (secs : List (String × List Node)) (cur : String)
    (buf : List Node) : List (String × List Node) :=
  if cur = "" then secs else updateMap secs cur buf

/-- The loop of `MADRParser._extract_sections`: walk the top-level nodes,
keeping the current section name (`""` = none), the current buffer and the
buckets stored so far. -/
def sectionsLoop : List Node → String → List Node →
    List (String × List Node) → List (String × List Node)
  | [], cur, buf, secs => flushSection secs cur buf
  | n :: ns, cur, buf, secs =>
    if n.ntype = "heading" then
      if n.level = 2 then
        sectionsLoop ns (extract_text n) [] (flushSection secs cur buf)
      else if cur = "" then sectionsLoop ns cur buf secs
      else sectionsLoop ns cur (buf ++ [n]) secs
    else if cur = "" then sectionsLoop ns cur buf secs
    else sectionsLoop ns cur (buf ++ [n]) secs

/-- The raw (pre-normalization) section buckets of a document. -/
def sectionsRaw (ast : List Node) : List (String × List Node) :=
  sectionsLoop ast "" [] []

/-- Normalization of one bucket (`MADRParser._normalize_sections` body):
a non-empty item collection wins, otherwise the joined text. -/
def normalizeBucket (nodes : List Node) : SectionValue :=
  match extract_list nodes with
  | some l => .list l
  | none => .text (extract_nodes_text nodes)

/-- Embeds `MADRParser._normalize_sections`. -/
def normalize_sections (raw : List (String × List Node)) :
    List (String × SectionValue) :=
  raw.map (fun p => (p.1, normalizeBucket p.2))

/-- Embeds `MADRParser._extract_sections`: split into buckets, then
normalize each. -/
def extract_sections (ast : List Node) : List (String × SectionValue) :=
  normalize_sections (sectionsRaw ast)

/-- Modelled from the spec: the `madr_labels` module is not under `src/`;
its recognized section labels are listed in the external-interfaces spec
section ("Context and Problem Statement"). -/
def CONTEXT_LABEL : String := "Context and Problem Statement"

/-- Modelled from the spec: "Decision Drivers" (see `CONTEXT_LABEL`). -/
def DECISION_DRIVERS_LABEL : String := "Decision Drivers"

/-- Modelled from the spec: "Considered Options" (see `CONTEXT_LABEL`). -/
def CONSIDERED_OPTIONS_LABEL : String := "Considered Options"

/-- Modelled from the spec: "Decision Outcome" (see `CONTEXT_LABEL`). -/
def DECISION_OUTCOME_LABEL : String := "Decision Outcome"

/-- Modelled from the spec: "Consequences" (see `CONTEXT_LABEL`). -/
def DECISION_CONSEQUENCES_LABEL : String := "Consequences"

/-- Modelled from the spec: the confirmation label has no explicit string
in the label list of the spec; the section name of the MADR template is
"Confirmation". No claim depends on its exact value. -/
def DECISION_CONFIRMATION_LABEL : String := "Confirmation"

/-- Modelled from the spec: "Pros and Cons of the Options"
(see `CONTEXT_LABEL`). -/
def PROS_AND_CONS_LABEL : String := "Pros and Cons of the Options"

/-- Modelled from the spec: "More Information" (see `CONTEXT_LABEL`). -/
def MORE_INFO_LABEL : String := "More Information"

/-- The per-item texts a `list` node contributes inside the pros-and-cons
section: item texts that are non-empty (`if text:`). -/
def pcItemTexts (n : Node) : List String :=
  (listItemTexts n.children).filter (fun s => s ≠ "")

/-- Append strings to the entry of a key
(`result[current_option].append(text)` for each text). -/
def appendItems (res : List (String × List String)) (k : String)
    (ts : List String) : List (String × List String) :=
  res.map (fun p => if p.1 = k then (p.1, p.2 ++ ts) else p)

/-- The loop of `MADRParser._extract_options_pros_and_cons`: walk the
top-level nodes with the in-section flag, the current option
(`none` = Python `None`) and the accumulated mapping.  A level-2 heading
with other text while in the section `break`s, returning the mapping as
accumulated so far. -/
def pcLoop : List Node → Bool → Option String →
    List (String × List String) → List (String × List String)
  | [], _, _, res => res
  | n :: ns, inSec, copt, res =>
    if n.ntype = "heading" then
      if n.level = 2 then
        if extract_text n = PROS_AND_CONS_LABEL then pcLoop ns true none res
        else if inSec then res
        else pcLoop ns false none res
      else if inSec ∧ n.level = 3 then
        pcLoop ns inSec (some (extract_text n))
          (if (lookupMap res (extract_text n)).isSome then res
           else res ++ [(extract_text n, [])])
      else pcLoop ns inSec copt res
    else
      match copt with
      | some o =>
        if inSec ∧ n.ntype = "list" ∧ o ≠ "" then
          pcLoop ns inSec copt (appendItems res o (pcItemTexts n))
        else pcLoop ns inSec copt res
      | none => pcLoop ns inSec copt res

/-- Embeds `MADRParser._extract_options_pros_and_cons`: the accumulated
mapping, or `none` when it is empty (`result or None`). -/
def extract_options_pros_and_cons (ast : List Node) :
    Option (List (String × List String)) :=
  if pcLoop ast false none [] = [] then none
  else some (pcLoop ast false none [])

/-- The output record (`MADRParser` dataclass).  `decision_consequences`
and `more_info` are annotated `Optional[str]` in the source but `parse`
always fills them through `_get_str`, which returns a plain string, so
they are modelled as `String`. -/
structure MADRRecord where
  title : String
  context : String
  decision_outcome : String
  decision_drivers : Option (List String)
  considered_options : Option (List String)
  decision_consequences : String
  decision_confirmation : Option (List String)
  options_pros_and_cons : Option (List (String × List String))
  more_info : String
deriving DecidableEq, Repr

/-- Embeds `MADRParser._get_str`: the text variant as-is, a list variant
joined by newline, the default `""` when the key is absent. -/
def get_str (sections : List (String × SectionValue)) (key : String) :
    String :=
  match lookupMap sections key with
  | none => ""
  | some (.text s) => s
  | some (.list l) => String.intercalate "\n" l

/-- Embeds `MADRParser._get_list`: the list variant, else `none`. -/
def get_list (sections : List (String × SectionValue)) (key : String) :
    Option (List String) :=
  match lookupMap sections key with
  | some (.list l) => some l
  | _ => none

/-- Embeds `MADRParser.parse`: `none` models the propagated `ValueError`
of `_extract_title`; every other field degrades to `""` or `none`. -/
def parse (ast : List Node) : Option MADRRecord :=
  match extract_title ast with
  | none => none
  | some t =>
    some
      { title := t
        context := get_str (extract_sections ast) CONTEXT_LABEL
        decision_outcome := get_str (extract_sections ast) DECISION_OUTCOME_LABEL
        decision_drivers := get_list (extract_sections ast) DECISION_DRIVERS_LABEL
        considered_options := get_list (extract_sections ast) CONSIDERED_OPTIONS_LABEL
        decision_consequences := get_str (extract_sections ast) DECISION_CONSEQUENCES_LABEL
        decision_confirmation := get_list (extract_sections ast) DECISION_CONFIRMATION_LABEL
        options_pros_and_cons := extract_options_pros_and_cons ast
        more_info := get_str (extract_sections ast) MORE_INFO_LABEL }

end MADRParser

/-!
Builders for the mistune AST shapes the parser reads: inline `text` tokens
carry `raw`; headings carry `attrs.level` and inline children; bullet
lists nest `list_item` → `block_text` → `text`; blank lines and soft line
breaks are childless, raw-less tokens.
-/

/-- An inline `text` token. -/
def txt (s : String) : Node := Node.make "text" 0 s []

/-- A `heading` token of the given level with a single text child. -/
def hdg (level : Nat) (s : String) : Node :=
  Node.make "heading" level "" [txt s]

/-- A `paragraph` token with the given inline children. -/
def para (cs : List Node) : Node := Node.make "paragraph" 0 "" cs

/-- A `list_item` token wrapping one `block_text` with one text child. -/
def item (s : String) : Node :=
  Node.make "list_item" 0 "" [Node.make "block_text" 0 "" [txt s]]

/-- A bullet `list` token with one `list_item` per string. -/
def ulist (ss : List String) : Node :=
  Node.make "list" 0 "" (ss.map item)

/-- A `blank_line` token. -/
def blank : Node := Node.make "blank_line" 0 "" []

/-- A `softbreak` inline token. -/
def sbreak : Node := Node.make "softbreak" 0 "" []

/-- The mistune AST of the sample MADR document of `src/test_parser.py`. -/
def sampleAst : List Node :=
  [hdg 1 "Use Plain JUnit5 for advanced test assertions",
   blank,
   hdg 2 "Context and Problem Statement",
   blank,
   para [txt "How to write readable test assertions?", sbreak,
         txt "How to write readable test assertions for advanced tests?"],
   blank,
   hdg 2 "Considered Options",
   blank,
   ulist ["Plain JUnit5", "Hamcrest", "AssertJ"],
   blank,
   hdg 2 "Decision Outcome",
   blank,
   para [txt "Chosen option: \"Plain JUnit5\", because comes out best."],
   blank,
   hdg 3 "Consequences",
   blank,
   ulist ["Good, because tests are more readable",
          "Good, because more easy to write tests"],
   blank,
   hdg 2 "Pros and Cons of the Options",
   blank,
   hdg 3 "Plain JUnit5",
   blank,
   ulist ["Good, because Junit5 is \"common Java knowledge\"",
          "Bad, because complex assertions tend to get hard to read"],
   blank,
   hdg 3 "Hamcrest",
   blank,
   ulist ["Good, because offers advanced matchers",
          "Bad, because not full fluent API"]]

/-- A document with two level-2 headings of identical text (the
pros-and-cons label), each with its own option and bullet. -/
def dupSectionAst : List Node :=
  [hdg 1 "T",
   hdg 2 "Pros and Cons of the Options",
   hdg 3 "A",
   ulist ["x"],
   hdg 2 "Pros and Cons of the Options",
   hdg 3 "B",
   ulist ["y"]]

mutual
/-- Depth-first concatenation of all descendant leaf text of a node,
with no stripping anywhere (the flattening the spec describes, before
its top-level trim). -/
def rawConcat : Node → String
  | .mk _ _ raw .nil => raw
  | .mk _ _ _ (.cons c cs) => rawConcat c ++ rawConcat_nl cs

/-- Depth-first concatenation over a child sequence. -/
def rawConcat_nl : NodeList → String
  | .nil => ""
  | .cons n ns => rawConcat n ++ rawConcat_nl ns
end

/-- The text flattening as the spec words it: depth-first concatenation of
all descendant leaf text, stripped at the top level only. -/
def flatten_claimed (n : Node) : String := MADRParser.strip (rawConcat n)

namespace MADRParser

/-! Helper lemmas about the association-list operations. -/

theorem lookupMap_mapUpdate_self {α : Type} (m : List (String × α))
    (k : String) (v : α) (h : (lookupMap m k).isSome) :
    lookupMap (m.map (fun p => if p.1 = k then (p.1, v) else p)) k
      = some v := by
  induction m with
  | nil => simp [lookupMap] at h
  | cons p ps ih =>
    by_cases hk : p.1 = k
    · simp [lookupMap, hk]
    · simp only [lookupMap, hk, if_false] at h
      simpa [lookupMap, hk] using ih h

theorem lookupMap_mapUpdate_ne {α : Type} (m : List (String × α))
    (k k' : String) (v : α) (hne : k' ≠ k) :
    lookupMap (m.map (fun p => if p.1 = k then (p.1, v) else p)) k'
      = lookupMap m k' := by
  induction m with
  | nil => simp [lookupMap]
  | cons p ps ih =>
    have hkk' : ¬ k = k' := fun e => hne e.symm
    by_cases hk : p.1 = k
    · have hk' : ¬ p.1 = k' := by
        intro e
        exact hne (e.symm.trans hk)
      simp [lookupMap, hk, hk', hkk', ih]
    · by_cases hk' : p.1 = k'
      · simp [lookupMap, hk, hk', hne, ih]
      · simp [lookupMap, hk, hk', ih]

theorem lookupMap_append_single_self {α : Type} (m : List (String × α))
    (k : String) (v : α) (h : lookupMap m k = none) :
    lookupMap (m ++ [(k, v)]) k = some v := by
  induction m with
  | nil => simp [lookupMap]
  | cons p ps ih =>
    by_cases hk : p.1 = k
    · simp [lookupMap, hk] at h
    · simp only [lookupMap, hk, if_false] at h
      simpa [lookupMap, hk] using ih h

theorem lookupMap_append_single_ne {α : Type} (m : List (String × α))
    (k k' : String) (v : α) (hne : k' ≠ k) :
    lookupMap (m ++ [(k, v)]) k' = lookupMap m k' := by
  induction m with
  | nil =>
    have : ¬ k = k' := fun e => hne e.symm
    simp [lookupMap, this]
  | cons p ps ih =>
    by_cases hk : p.1 = k'
    · simp [lookupMap, hk]
    · simpa [lookupMap, hk] using ih

theorem lookupMap_updateMap_self {α : Type} (m : List (String × α))
    (k : String) (v : α) : lookupMap (updateMap m k v) k = some v := by
  unfold updateMap
  by_cases h : (lookupMap m k).isSome
  · simpa [h] using lookupMap_mapUpdate_self m k v h
  · have hnone : lookupMap m k = none := by
      cases hv : lookupMap m k with
      | none => rfl
      | some w => rw [hv] at h; simp at h
    simpa [h] using lookupMap_append_single_self m k v hnone

theorem lookupMap_updateMap_ne {α : Type} (m : List (String × α))
    (k k' : String) (v : α) (hne : k' ≠ k) :
    lookupMap (updateMap m k v) k' = lookupMap m k' := by
  unfold updateMap
  by_cases h : (lookupMap m k).isSome
  · simpa [h] using lookupMap_mapUpdate_ne m k k' v hne
  · simpa [h] using lookupMap_append_single_ne m k k' v hne

/-- Looking up a normalized map is normalizing the looked-up bucket. -/
theorem lookupMap_normalize (raw : List (String × List Node)) (k : String) :
    lookupMap (normalize_sections raw) k
      = (lookupMap raw k).map normalizeBucket := by
  induction raw with
  | nil => simp [normalize_sections, lookupMap]
  | cons p ps ih =>
    by_cases hk : p.1 = k
    · simp [normalize_sections, lookupMap, hk]
    · simpa [normalize_sections, lookupMap, hk] using ih

/-! Lemmas about the title extractor. -/

theorem extract_title_none_iff (ast : List Node) :
    extract_title ast = none
      ↔ ∀ n ∈ ast, ¬ (n.ntype = "heading" ∧ n.level = 1) := by
  induction ast with
  | nil => simp [extract_title]
  | cons n ns ih =>
    by_cases h : n.ntype = "heading" ∧ n.level = 1
    · simp [extract_title, h]
    · simp [extract_title, h, ih]
      tauto

theorem extract_title_append (pre l : List Node)
    (hpre : ∀ n ∈ pre, ¬ (n.ntype = "heading" ∧ n.level = 1)) :
    extract_title (pre ++ l) = extract_title l := by
  induction pre with
  | nil => rfl
  | cons n ns ih =>
    have hn := hpre n (by simp)
    have hns : ∀ m ∈ ns, ¬ (m.ntype = "heading" ∧ m.level = 1) :=
      fun m hm => hpre m (by simp [hm])
    simp [extract_title, hn, ih hns]

/-! Lemmas about the pros-and-cons loop. -/

theorem lookupMap_append_left {α : Type} (m l : List (String × α))
    (k : String) (v : α) (h : lookupMap m k = some v) :
    lookupMap (m ++ l) k = some v := by
  induction m with
  | nil => simp [lookupMap] at h
  | cons p ps ih =>
    by_cases hp : p.1 = k
    · simp only [lookupMap, hp, if_true] at h
      simp [lookupMap, hp, h]
    · simp only [lookupMap, hp, if_false] at h
      simpa [lookupMap, hp] using ih h

theorem lookupMap_appendItems (res : List (String × List String))
    (o : String) (ts : List String) (k : String) :
    lookupMap (appendItems res o ts) k
      = (lookupMap res k).map (fun v => if k = o then v ++ ts else v) := by
  induction res with
  | nil => simp [appendItems, lookupMap]
  | cons p ps ih =>
    by_cases hp : p.1 = k
    · by_cases ho : p.1 = o
      · have hko : k = o := hp.symm.trans ho
        subst hko
        simp [appendItems, lookupMap, hp, ho]
      · have hko : ¬ k = o := fun e => ho (hp.trans e)
        simp [appendItems, lookupMap, hp, ho, hko]
    · by_cases ho : p.1 = o
      · have hok : ¬ o = k := fun e => hp (ho.trans e)
        simpa [appendItems, lookupMap, hp, ho, hok] using ih
      · simpa [appendItems, lookupMap, hp, ho] using ih

theorem pcLoop_isSome_mono (ns : List Node) :
    ∀ (inSec : Bool) (copt : Option String)
      (res : List (String × List String)) (k : String),
      (lookupMap res k).isSome
      → (lookupMap (pcLoop ns inSec copt res) k).isSome := by
  induction ns with
  | nil => intro inSec copt res k h; simpa [pcLoop] using h
  | cons n ns ih =>
    intro inSec copt res k h
    by_cases h1 : n.ntype = "heading"
    · by_cases h2 : n.level = 2
      · by_cases h3 : extract_text n = PROS_AND_CONS_LABEL
        · simpa [pcLoop, h1, h2, h3] using ih true none res k h
        · cases inSec with
          | true => simpa [pcLoop, h1, h2, h3] using h
          | false => simpa [pcLoop, h1, h2, h3] using ih false none res k h
      · by_cases h4 : inSec = true ∧ n.level = 3
        · by_cases h5 : (lookupMap res (extract_text n)).isSome
          · simpa [pcLoop, h1, h2, h4, h5] using
              ih inSec (some (extract_text n)) res k h
          · have happ : (lookupMap (res ++ [(extract_text n, [])]) k).isSome := by
              cases hv : lookupMap res k with
              | none => rw [hv] at h; simp at h
              | some v =>
                rw [lookupMap_append_left res _ k v hv]
                rfl
            simpa [pcLoop, h1, h2, h4, h5] using
              ih inSec (some (extract_text n)) _ k happ
        · simpa [pcLoop, h1, h2, h4] using ih inSec copt res k h
    · cases copt with
      | none => simpa [pcLoop, h1] using ih inSec none res k h
      | some o =>
        by_cases h5 : inSec = true ∧ n.ntype = "list" ∧ ¬ o = ""
        · have happ : (lookupMap (appendItems res o (pcItemTexts n)) k).isSome := by
            rw [lookupMap_appendItems]
            cases hv : lookupMap res k with
            | none => rw [hv] at h; simp at h
            | some v => rfl
          simpa [pcLoop, h1, h5] using ih inSec (some o) _ k happ
        · simpa [pcLoop, h1, h5] using ih inSec (some o) res k h

theorem pcLoop_stable_of_no_list (ns : List Node) :
    ∀ (inSec : Bool) (copt : Option String)
      (res : List (String × List String)) (k : String) (v : List String),
      lookupMap res k = some v
      → (∀ n ∈ ns, ¬ n.ntype = "list")
      → lookupMap (pcLoop ns inSec copt res) k = some v := by
  induction ns with
  | nil => intro inSec copt res k v h _; simpa [pcLoop] using h
  | cons n ns ih =>
    intro inSec copt res k v h hnl
    have hn : ¬ n.ntype = "list" := hnl n (by simp)
    have hns : ∀ m ∈ ns, ¬ m.ntype = "list" :=
      fun m hm => hnl m (by simp [hm])
    by_cases h1 : n.ntype = "heading"
    · by_cases h2 : n.level = 2
      · by_cases h3 : extract_text n = PROS_AND_CONS_LABEL
        · simpa [pcLoop, h1, h2, h3] using ih true none res k v h hns
        · cases inSec with
          | true => simpa [pcLoop, h1, h2, h3] using h
          | false => simpa [pcLoop, h1, h2, h3] using ih false none res k v h hns
      · by_cases h4 : inSec = true ∧ n.level = 3
        · by_cases h5 : (lookupMap res (extract_text n)).isSome
          · simpa [pcLoop, h1, h2, h4, h5] using
              ih inSec (some (extract_text n)) res k v h hns
          · have hne : k ≠ extract_text n := by
              intro e
              rw [e] at h
              rw [h] at h5
              simp at h5
            have happ : lookupMap (res ++ [(extract_text n, [])]) k = some v :=
              lookupMap_append_left res _ k v h
            simpa [pcLoop, h1, h2, h4, h5] using
              ih inSec (some (extract_text n)) _ k v happ hns
        · simpa [pcLoop, h1, h2, h4] using ih inSec copt res k v h hns
    · cases copt with
      | none => simpa [pcLoop, h1] using ih inSec none res k v h hns
      | some o =>
        have h5 : ¬ (inSec = true ∧ n.ntype = "list" ∧ ¬ o = "") := by
          intro hc
          exact hn hc.2.1
        simpa [pcLoop, h1, h5] using ih inSec (some o) res k v h hns

theorem pcLoop_not_entered (ns : List Node) :
    ∀ (copt : Option String) (res : List (String × List String)),
      (∀ n ∈ ns, ¬ (n.ntype = "heading" ∧ n.level = 2
        ∧ extract_text n = PROS_AND_CONS_LABEL))
      → pcLoop ns false copt res = res := by
  induction ns with
  | nil => intro copt res _; simp [pcLoop]
  | cons n ns ih =>
    intro copt res hno
    have hn := hno n (by simp)
    have hns : ∀ m ∈ ns, ¬ (m.ntype = "heading" ∧ m.level = 2
        ∧ extract_text m = PROS_AND_CONS_LABEL) :=
      fun m hm => hno m (by simp [hm])
    by_cases h1 : n.ntype = "heading"
    · by_cases h2 : n.level = 2
      · have h3 : ¬ extract_text n = PROS_AND_CONS_LABEL := by
          intro e
          exact hn ⟨h1, h2, e⟩
        simpa [pcLoop, h1, h2, h3] using ih none res hns
      · have h4 : ¬ ((false : Bool) = true ∧ n.level = 3) := by simp
        simpa [pcLoop, h1, h2, h4] using ih copt res hns
    · cases copt with
      | none => simpa [pcLoop, h1] using ih none res hns
      | some o =>
        have h5 : ¬ ((false : Bool) = true ∧ n.ntype = "list" ∧ ¬ o = "") := by
          simp
        simpa [pcLoop, h1, h5] using ih (some o) res hns

theorem pcLoop_preserves_unselected_key (k : String) (ns : List Node) :
    ∀ (inSec : Bool) (copt : Option String)
      (res : List (String × List String)) (v : List String),
      lookupMap res k = some v
      → copt ≠ some k
      → (∀ n ∈ ns, ¬ (n.ntype = "heading" ∧ n.level = 3
          ∧ extract_text n = k))
      → lookupMap (pcLoop ns inSec copt res) k = some v := by
  induction ns with
  | nil => intro inSec copt res v h _ _; simpa [pcLoop] using h
  | cons n ns ih =>
    intro inSec copt res v h hcopt hno
    have hns : ∀ m ∈ ns, ¬ (m.ntype = "heading" ∧ m.level = 3
        ∧ extract_text m = k) := fun m hm => hno m (by simp [hm])
    by_cases h1 : n.ntype = "heading"
    · by_cases h2 : n.level = 2
      · by_cases h3 : extract_text n = PROS_AND_CONS_LABEL
        · simpa [pcLoop, h1, h2, h3] using
            ih true none res v h (by simp) hns
        · cases inSec with
          | true => simpa [pcLoop, h1, h2, h3] using h
          | false =>
            simpa [pcLoop, h1, h2, h3] using
              ih false none res v h (by simp) hns
      · by_cases h4 : inSec = true ∧ n.level = 3
        · have hne : extract_text n ≠ k := by
            intro e
            exact hno n (by simp) ⟨h1, h4.2, e⟩
          have hcopt2 : (some (extract_text n) : Option String) ≠ some k :=
            fun e => hne (Option.some.inj e)
          by_cases h5 : (lookupMap res (extract_text n)).isSome = true
          · simpa [pcLoop, h1, h2, h4, h5] using
              ih inSec (some (extract_text n)) res v h hcopt2 hns
          · have happ : lookupMap (res ++ [(extract_text n, [])]) k
                = some v := lookupMap_append_left res _ k v h
            simpa [pcLoop, h1, h2, h4, h5] using
              ih inSec (some (extract_text n)) _ v happ hcopt2 hns
        · simpa [pcLoop, h1, h2, h4] using ih inSec copt res v h hcopt hns
    · cases copt with
      | none => simpa [pcLoop, h1] using ih inSec none res v h (by simp) hns
      | some o =>
        by_cases h5 : inSec = true ∧ n.ntype = "list" ∧ ¬ o = ""
        · have hko : k ≠ o := by
            intro e
            exact hcopt (by rw [e])
          have happ : lookupMap (appendItems res o (pcItemTexts n)) k
              = some v := by
            rw [lookupMap_appendItems, h]
            simp [hko]
          simpa [pcLoop, h1, h5] using
            ih inSec (some o) _ v happ hcopt hns
        · simpa [pcLoop, h1, h5] using ih inSec (some o) res v h hcopt hns

theorem pcLoop_value_until_boundary (t : String) (mid : List Node) :
    ∀ (h2 : Node) (rest2 : List Node) (copt : Option String)
      (res : List (String × List String)) (v : List String),
      lookupMap res t = some v
      → (∀ n ∈ mid, ¬ n.ntype = "list")
      → h2.ntype = "heading"
      → (h2.level = 2 ∨ (h2.level = 3 ∧ extract_text h2 ≠ t))
      → (∀ n ∈ rest2, ¬ (n.ntype = "heading" ∧ n.level = 3
          ∧ extract_text n = t))
      → lookupMap (pcLoop (mid ++ h2 :: rest2) true copt res) t
          = some v := by
  induction mid with
  | nil =>
    intro h2 rest2 copt res v h _ hh2 hlv hafter
    rw [List.nil_append]
    rcases hlv with hl2 | ⟨hl3, hne⟩
    · by_cases h3 : extract_text h2 = PROS_AND_CONS_LABEL
      · simpa [pcLoop, hh2, hl2, h3] using
          pcLoop_preserves_unselected_key t rest2 true none res v h
            (by simp) hafter
      · simpa [pcLoop, hh2, hl2, h3] using h
    · have h2ne : ¬ h2.level = 2 := by rw [hl3]; decide
      have hcopt2 : (some (extract_text h2) : Option String) ≠ some t :=
        fun e => hne (Option.some.inj e)
      by_cases h5 : (lookupMap res (extract_text h2)).isSome = true
      · simpa [pcLoop, hh2, h2ne, hl3, h5] using
          pcLoop_preserves_unselected_key t rest2 true
            (some (extract_text h2)) res v h hcopt2 hafter
      · have happ : lookupMap (res ++ [(extract_text h2, [])]) t = some v :=
          lookupMap_append_left res _ t v h
        simpa [pcLoop, hh2, h2ne, hl3, h5] using
          pcLoop_preserves_unselected_key t rest2 true
            (some (extract_text h2)) _ v happ hcopt2 hafter
  | cons n mid ih =>
    intro h2 rest2 copt res v h hmid hh2 hlv hafter
    have hn : ¬ n.ntype = "list" := hmid n (by simp)
    have hmid2 : ∀ m ∈ mid, ¬ m.ntype = "list" :=
      fun m hm => hmid m (by simp [hm])
    by_cases h1 : n.ntype = "heading"
    · by_cases hl2 : n.level = 2
      · by_cases h3 : extract_text n = PROS_AND_CONS_LABEL
        · simpa [pcLoop, h1, hl2, h3] using
            ih h2 rest2 none res v h hmid2 hh2 hlv hafter
        · simpa [pcLoop, h1, hl2, h3] using h
      · by_cases h4 : n.level = 3
        · by_cases h5 : (lookupMap res (extract_text n)).isSome = true
          · simpa [pcLoop, h1, hl2, h4, h5] using
              ih h2 rest2 (some (extract_text n)) res v h hmid2 hh2 hlv hafter
          · have happ : lookupMap (res ++ [(extract_text n, [])]) t
                = some v := lookupMap_append_left res _ t v h
            simpa [pcLoop, h1, hl2, h4, h5] using
              ih h2 rest2 (some (extract_text n)) _ v happ hmid2 hh2 hlv hafter
        · simpa [pcLoop, h1, hl2, h4] using
            ih h2 rest2 copt res v h hmid2 hh2 hlv hafter
    · cases copt with
      | none =>
        simpa [pcLoop, h1] using ih h2 rest2 none res v h hmid2 hh2 hlv hafter
      | some o =>
        have h5 : ¬ (n.ntype = "list" ∧ ¬ o = "") := fun hc => hn hc.1
        simpa [pcLoop, h1, h5] using
          ih h2 rest2 (some o) res v h hmid2 hh2 hlv hafter

end MADRParser

/-- C1: parse fails exactly on the documents whose AST has no level-1
heading: `parse` returns `none` (the propagated `MissingTitleError`)
if and only if no top-level node is a level-1 heading, and hence returns
a record on every input that has one — the only hard failure. -/
theorem parse_fails_iff_no_level1_heading (ast : List Node) :
    MADRParser.parse ast = none
      ↔ ∀ n ∈ ast, ¬ (n.ntype = "heading" ∧ n.level = 1) := by
  rw [← MADRParser.extract_title_none_iff]
  cases hv : MADRParser.extract_title ast <;> simp [MADRParser.parse, hv]

/-- C2: when a level-1 heading is preceded by no other level-1 heading,
parsing succeeds and the title field is exactly the flattened text of that
heading, regardless of the surrounding content; in particular, with
exactly one level-1 heading anywhere, the title is its flattened text. -/
theorem title_is_first_level1_heading (pre post : List Node) (h : Node)
    (hh : h.ntype = "heading") (hl : h.level = 1)
    (hpre : ∀ n ∈ pre, ¬ (n.ntype = "heading" ∧ n.level = 1)) :
    ∃ r, MADRParser.parse (pre ++ h :: post) = some r
      ∧ r.title = MADRParser.extract_text h := by
  have ht : MADRParser.extract_title (pre ++ h :: post)
      = some (MADRParser.extract_text h) := by
    rw [MADRParser.extract_title_append pre _ hpre]
    simp [MADRParser.extract_title, hh, hl]
  simp only [MADRParser.parse, ht]
  exact ⟨_, rfl, rfl⟩

/-- Witness for C2 at a concrete document: a paragraph, then the title
heading, then a section. -/
theorem title_is_first_level1_heading_witness :
    ∃ r, MADRParser.parse
        [para [txt "intro"], hdg 1 " My Title ", hdg 2 "Context"]
        = some r
      ∧ r.title = MADRParser.extract_text (hdg 1 " My Title ") :=
  title_is_first_level1_heading [para [txt "intro"]]
    [hdg 2 "Context"] (hdg 1 " My Title ") rfl rfl (by decide)

/-- C5: while inside the pros-and-cons section, processing a level-3
heading always records its flattened text as a key of the result, whatever
follows; and a new option with zero bullets — no list node up to the next
level-2 heading or differently named level-3 heading, with the same name
never reused as an option afterwards — stays mapped to the empty
sequence, whatever other options and bullet lists follow. -/
theorem pros_cons_level3_heading_always_keyed (h : Node)
    (mid rest2 : List Node) (copt : Option String)
    (res : List (String × List String))
    (hh : h.ntype = "heading") (hl : h.level = 3) :
    (MADRParser.lookupMap
        (MADRParser.pcLoop (h :: (mid ++ rest2)) true copt res)
        (MADRParser.extract_text h)).isSome = true
    ∧ (MADRParser.lookupMap res (MADRParser.extract_text h) = none
       → (∀ n ∈ mid, ¬ n.ntype = "list")
       → (rest2 = []
          ∨ ∃ b tail, rest2 = b :: tail ∧ b.ntype = "heading"
            ∧ (b.level = 2 ∨ (b.level = 3
                ∧ MADRParser.extract_text b ≠ MADRParser.extract_text h))
            ∧ ∀ n ∈ tail, ¬ (n.ntype = "heading" ∧ n.level = 3
                ∧ MADRParser.extract_text n = MADRParser.extract_text h))
       → MADRParser.lookupMap
           (MADRParser.pcLoop (h :: (mid ++ rest2)) true copt res)
           (MADRParser.extract_text h) = some []) := by
  have hstep : MADRParser.pcLoop (h :: (mid ++ rest2)) true copt res
      = MADRParser.pcLoop (mid ++ rest2) true
          (some (MADRParser.extract_text h))
          (if (MADRParser.lookupMap res (MADRParser.extract_text h)).isSome
           then res
           else res ++ [(MADRParser.extract_text h, [])]) := by
    simp [MADRParser.pcLoop, hh, hl]
  constructor
  · rw [hstep]
    by_cases h5 : (MADRParser.lookupMap res (MADRParser.extract_text h)).isSome
        = true
    · rw [if_pos h5]
      exact MADRParser.pcLoop_isSome_mono (mid ++ rest2) true _ res _ h5
    · have hnone : MADRParser.lookupMap res (MADRParser.extract_text h)
          = none := by
        cases hv : MADRParser.lookupMap res (MADRParser.extract_text h) with
        | none => rfl
        | some w => rw [hv] at h5; simp at h5
      have happ := MADRParser.lookupMap_append_single_self res
        (MADRParser.extract_text h) [] hnone
      rw [if_neg h5]
      exact MADRParser.pcLoop_isSome_mono (mid ++ rest2) true _ _ _
        (by rw [happ]; rfl)
  · intro hnone hmid hbd
    rw [hstep]
    have happ := MADRParser.lookupMap_append_single_self res
      (MADRParser.extract_text h) [] hnone
    have h5 : ¬ (MADRParser.lookupMap res (MADRParser.extract_text h)).isSome
        = true := by simp [hnone]
    rw [if_neg h5]
    rcases hbd with hnil | ⟨b, tail, req, hhb, hlv, hafter⟩
    · subst hnil
      rw [List.append_nil]
      exact MADRParser.pcLoop_stable_of_no_list mid true _ _ _ [] happ hmid
    · subst req
      exact MADRParser.pcLoop_value_until_boundary
        (MADRParser.extract_text h) mid b tail _ _ [] happ hmid hhb hlv hafter

/-- Witness for C5: a zero-bullet option followed by another option with
its own bullet list is still keyed and mapped to the empty sequence. -/
theorem pros_cons_level3_heading_always_keyed_witness :
    (MADRParser.lookupMap
        (MADRParser.pcLoop
          (hdg 3 "Zero" :: ([blank] ++ [hdg 3 "Other", ulist ["b1"]]))
          true none [])
        (MADRParser.extract_text (hdg 3 "Zero"))).isSome = true
    ∧ MADRParser.lookupMap
        (MADRParser.pcLoop
          (hdg 3 "Zero" :: ([blank] ++ [hdg 3 "Other", ulist ["b1"]]))
          true none [])
        (MADRParser.extract_text (hdg 3 "Zero")) = some [] := by
  have h := pros_cons_level3_heading_always_keyed (hdg 3 "Zero")
    [blank] [hdg 3 "Other", ulist ["b1"]] none [] rfl rfl
  refine ⟨h.1, h.2 rfl (by decide) ?_⟩
  exact Or.inr ⟨hdg 3 "Other", [ulist ["b1"]], rfl, rfl,
    Or.inr ⟨rfl, by decide⟩, by decide⟩

/-- C6: the pros-and-cons extractor never returns an empty mapping — a
returned mapping is non-empty, and a document with no level-2 heading
carrying the pros-and-cons label yields `none` (absent). -/
theorem pros_cons_mapping_nonempty_or_absent (ast : List Node) :
    (∀ m, MADRParser.extract_options_pros_and_cons ast = some m → m ≠ [])
    ∧ ((∀ n ∈ ast, ¬ (n.ntype = "heading" ∧ n.level = 2
          ∧ MADRParser.extract_text n = MADRParser.PROS_AND_CONS_LABEL))
       → MADRParser.extract_options_pros_and_cons ast = none) := by
  constructor
  · intro m hm hme
    unfold MADRParser.extract_options_pros_and_cons at hm
    by_cases he : MADRParser.pcLoop ast false none [] = []
    · simp [he] at hm
    · simp only [he, if_false] at hm
      exact he ((Option.some.inj hm).trans hme)
  · intro hno
    unfold MADRParser.extract_options_pros_and_cons
    rw [MADRParser.pcLoop_not_entered ast none [] hno]
    simp

/-- Witness for C6: a document with sections but no pros-and-cons section
yields an absent mapping. -/
theorem pros_cons_mapping_nonempty_or_absent_witness :
    MADRParser.extract_options_pros_and_cons
      [hdg 1 "T", hdg 2 "Context and Problem Statement", para [txt "x"]]
      = none :=
  (pros_cons_mapping_nonempty_or_absent _).2 (by decide)

/-- C7: once inside the pros-and-cons section, a level-2 heading with any
other text terminates the scan: the loop returns the mapping accumulated
so far, so no node after that heading — whatever it is, including a later
second pros-and-cons heading — contributes to the result. -/
theorem pros_cons_scan_stops_on_other_heading (h : Node) (rest : List Node)
    (copt : Option String) (res : List (String × List String))
    (hh : h.ntype = "heading") (hl : h.level = 2)
    (ht : MADRParser.extract_text h ≠ MADRParser.PROS_AND_CONS_LABEL) :
    MADRParser.pcLoop (h :: rest) true copt res = res := by
  simp [MADRParser.pcLoop, hh, hl, ht]

/-- Witness for C7: after leaving the section, a later second
pros-and-cons section and its bullets are ignored. -/
theorem pros_cons_scan_stops_on_other_heading_witness :
    MADRParser.pcLoop
      [hdg 2 "Decision Outcome",
       hdg 2 "Pros and Cons of the Options", hdg 3 "B", ulist ["y"]]
      true none [("A", ["x"])]
      = [("A", ["x"])] :=
  pros_cons_scan_stops_on_other_heading _ _ none _ rfl rfl (by decide)

namespace MADRParser

/-! Lemmas about the section splitter. -/

theorem lookupMap_flushSection_empty (secs : List (String × List Node))
    (cur : String) (buf : List Node)
    (h : lookupMap secs "" = none) :
    lookupMap (flushSection secs cur buf) "" = none := by
  unfold flushSection
  by_cases hc : cur = ""
  · simpa [hc] using h
  · rw [if_neg hc, lookupMap_updateMap_ne secs cur "" buf
      (fun e => hc e.symm)]
    exact h

theorem sections_no_empty_key (ns : List Node) :
    ∀ (cur : String) (buf : List Node) (secs : List (String × List Node)),
      lookupMap secs "" = none
      → lookupMap (sectionsLoop ns cur buf secs) "" = none := by
  induction ns with
  | nil =>
    intro cur buf secs h
    simpa [sectionsLoop] using lookupMap_flushSection_empty secs cur buf h
  | cons n ns ih =>
    intro cur buf secs h
    by_cases h1 : n.ntype = "heading"
    · by_cases h2 : n.level = 2
      · simpa [sectionsLoop, h1, h2] using
          ih (extract_text n) [] _ (lookupMap_flushSection_empty secs cur buf h)
      · by_cases h3 : cur = ""
        · simpa [sectionsLoop, h1, h2, h3] using ih cur buf secs h
        · simpa [sectionsLoop, h1, h2, h3] using ih cur (buf ++ [n]) secs h
    · by_cases h3 : cur = ""
      · simpa [sectionsLoop, h1, h3] using ih cur buf secs h
      · simpa [sectionsLoop, h1, h3] using ih cur (buf ++ [n]) secs h

theorem sections_skip_when_inactive (mid : List Node) :
    ∀ (rest : List Node) (buf : List Node)
      (secs : List (String × List Node)),
      (∀ n ∈ mid, ¬ (n.ntype = "heading" ∧ n.level = 2))
      → sectionsLoop (mid ++ rest) "" buf secs
          = sectionsLoop rest "" buf secs := by
  induction mid with
  | nil => intro rest buf secs _; rfl
  | cons n ns ih =>
    intro rest buf secs hno
    have hn := hno n (by simp)
    have hns : ∀ m ∈ ns, ¬ (m.ntype = "heading" ∧ m.level = 2) :=
      fun m hm => hno m (by simp [hm])
    by_cases h1 : n.ntype = "heading"
    · have h2 : ¬ n.level = 2 := fun e => hn ⟨h1, e⟩
      simpa [sectionsLoop, h1, h2] using ih rest buf secs hns
    · simpa [sectionsLoop, h1] using ih rest buf secs hns

theorem sections_tail_bucket (c : List Node) :
    ∀ (cur : String) (buf : List Node) (secs : List (String × List Node)),
      (∀ n ∈ c, ¬ (n.ntype = "heading" ∧ n.level = 2))
      → cur ≠ ""
      → lookupMap (sectionsLoop c cur buf secs) cur = some (buf ++ c) := by
  induction c with
  | nil =>
    intro cur buf secs _ hcur
    simpa [sectionsLoop, flushSection, hcur] using
      lookupMap_updateMap_self secs cur buf
  | cons n ns ih =>
    intro cur buf secs hno hcur
    have hn := hno n (by simp)
    have hns : ∀ m ∈ ns, ¬ (m.ntype = "heading" ∧ m.level = 2) :=
      fun m hm => hno m (by simp [hm])
    by_cases h1 : n.ntype = "heading"
    · have h2 : ¬ n.level = 2 := fun e => hn ⟨h1, e⟩
      simpa [sectionsLoop, h1, h2, hcur] using ih cur (buf ++ [n]) secs hns hcur
    · simpa [sectionsLoop, h1, hcur] using ih cur (buf ++ [n]) secs hns hcur

theorem lookupMap_flushSection_ne (secs : List (String × List Node))
    (cur : String) (buf : List Node) (t : String) (hne : cur ≠ t) :
    lookupMap (flushSection secs cur buf) t = lookupMap secs t := by
  unfold flushSection
  by_cases hc : cur = ""
  · rw [if_pos hc]
  · rw [if_neg hc,
      lookupMap_updateMap_ne secs cur t buf (fun e => hne e.symm)]

theorem sections_preserve_other_key (t : String) (ns : List Node) :
    ∀ (cur : String) (buf : List Node) (secs : List (String × List Node))
      (v : List Node),
      lookupMap secs t = some v
      → cur ≠ t
      → (∀ n ∈ ns, n.ntype = "heading" → n.level = 2
          → extract_text n ≠ t)
      → lookupMap (sectionsLoop ns cur buf secs) t = some v := by
  induction ns with
  | nil =>
    intro cur buf secs v h hcur _
    show lookupMap (flushSection secs cur buf) t = some v
    rw [lookupMap_flushSection_ne secs cur buf t hcur]
    exact h
  | cons n ns ih =>
    intro cur buf secs v h hcur hno
    have hns : ∀ m ∈ ns, m.ntype = "heading" → m.level = 2
        → extract_text m ≠ t := fun m hm => hno m (by simp [hm])
    by_cases h1 : n.ntype = "heading"
    · by_cases h2 : n.level = 2
      · have htn : extract_text n ≠ t := hno n (by simp) h1 h2
        have hf : lookupMap (flushSection secs cur buf) t = some v := by
          rw [lookupMap_flushSection_ne secs cur buf t hcur]
          exact h
        simpa [sectionsLoop, h1, h2] using
          ih (extract_text n) [] (flushSection secs cur buf) v hf htn hns
      · by_cases h3 : cur = ""
        · simpa [sectionsLoop, h1, h2, h3] using ih cur buf secs v h hcur hns
        · simpa [sectionsLoop, h1, h2, h3] using
            ih cur (buf ++ [n]) secs v h hcur hns
    · by_cases h3 : cur = ""
      · simpa [sectionsLoop, h1, h3] using ih cur buf secs v h hcur hns
      · simpa [sectionsLoop, h1, h3] using
          ih cur (buf ++ [n]) secs v h hcur hns

theorem sections_bucket_until_boundary (t : String) (c : List Node) :
    ∀ (b : Node) (tail : List Node) (buf : List Node)
      (secs : List (String × List Node)),
      t ≠ ""
      → (∀ n ∈ c, ¬ (n.ntype = "heading" ∧ n.level = 2))
      → b.ntype = "heading"
      → b.level = 2
      → extract_text b ≠ t
      → (∀ n ∈ tail, n.ntype = "heading" → n.level = 2
          → extract_text n ≠ t)
      → lookupMap (sectionsLoop (c ++ b :: tail) t buf secs) t
          = some (buf ++ c) := by
  induction c with
  | nil =>
    intro b tail buf secs hne hc hhb hlb htb htail
    rw [List.nil_append]
    have hstep : sectionsLoop (b :: tail) t buf secs
        = sectionsLoop tail (extract_text b) []
            (flushSection secs t buf) := by
      simp [sectionsLoop, hhb, hlb]
    rw [hstep]
    have hflush : lookupMap (flushSection secs t buf) t = some buf := by
      unfold flushSection
      rw [if_neg hne]
      exact lookupMap_updateMap_self secs t buf
    simpa using sections_preserve_other_key t tail (extract_text b) []
      (flushSection secs t buf) buf hflush htb htail
  | cons n c ih =>
    intro b tail buf secs hne hc hhb hlb htb htail
    have hn := hc n (by simp)
    have hc2 : ∀ m ∈ c, ¬ (m.ntype = "heading" ∧ m.level = 2) :=
      fun m hm => hc m (by simp [hm])
    by_cases h1 : n.ntype = "heading"
    · have h2n : ¬ n.level = 2 := fun e => hn ⟨h1, e⟩
      simpa [sectionsLoop, h1, h2n, hne] using
        ih b tail (buf ++ [n]) secs hne hc2 hhb hlb htb htail
    · simpa [sectionsLoop, h1, hne] using
        ih b tail (buf ++ [n]) secs hne hc2 hhb hlb htb htail

theorem sections_last_wins (h : Node) (c rest : List Node)
    (hh : h.ntype = "heading") (hl : h.level = 2)
    (hne : extract_text h ≠ "")
    (hc : ∀ n ∈ c, ¬ (n.ntype = "heading" ∧ n.level = 2))
    (hrest : ∀ n ∈ rest, n.ntype = "heading" → n.level = 2
      → extract_text n ≠ extract_text h)
    (hbd : rest = [] ∨ ∃ b tail, rest = b :: tail
      ∧ b.ntype = "heading" ∧ b.level = 2) (a : List Node) :
    ∀ (cur : String) (buf : List Node) (secs : List (String × List Node)),
      lookupMap (sectionsLoop (a ++ h :: (c ++ rest)) cur buf secs)
        (extract_text h) = some c := by
  induction a with
  | nil =>
    intro cur buf secs
    have hstep : sectionsLoop (h :: (c ++ rest)) cur buf secs
        = sectionsLoop (c ++ rest) (extract_text h) []
            (flushSection secs cur buf) := by
      simp [sectionsLoop, hh, hl]
    rw [List.nil_append, hstep]
    rcases hbd with hnil | ⟨b, tail, req, hhb, hlb⟩
    · subst hnil
      rw [List.append_nil]
      simpa using sections_tail_bucket c (extract_text h) [] _ hc hne
    · subst req
      have htb : extract_text b ≠ extract_text h :=
        hrest b (by simp) hhb hlb
      have htail : ∀ n ∈ tail, n.ntype = "heading" → n.level = 2
          → extract_text n ≠ extract_text h :=
        fun n hn => hrest n (by simp [hn])
      simpa using sections_bucket_until_boundary (extract_text h) c b tail
        [] _ hne hc hhb hlb htb htail
  | cons n a ih =>
    intro cur buf secs
    by_cases h1 : n.ntype = "heading"
    · by_cases h2 : n.level = 2
      · simpa [sectionsLoop, h1, h2] using
          ih (extract_text n) [] (flushSection secs cur buf)
      · by_cases h3 : cur = ""
        · simpa [sectionsLoop, h1, h2, h3] using ih cur buf secs
        · simpa [sectionsLoop, h1, h2, h3] using ih cur (buf ++ [n]) secs
    · by_cases h3 : cur = ""
      · simpa [sectionsLoop, h1, h3] using ih cur buf secs
      · simpa [sectionsLoop, h1, h3] using ih cur (buf ++ [n]) secs

/-! A helper equation relating the child-sequence concatenation to
`String.join` over the mapped list. -/

theorem extract_text_nl_ofList (cs : List Node) :
    extract_text_nl (NodeList.ofList cs)
      = String.join (cs.map extract_text) := by
  induction cs with
  | nil => rw [List.map_nil, String.join_eq]; rfl
  | cons c cs ih =>
    show extract_text c ++ extract_text_nl (NodeList.ofList cs) = _
    rw [ih, List.map_cons, String.join_eq, String.join_eq]
    rfl

end MADRParser

/-- C3 (counterexample): a bucket that contains a direct `list` node whose
item collection is empty is normalized to `Text("")`, not to a `List`
value, contradicting the claim that any bucket with at least one direct
list node yields a `List(...)` section value. -/
theorem list_without_items_yields_text_cex :
    (∃ n ∈ [Node.make "list" 0 "" []], n.ntype = "list")
    ∧ MADRParser.normalize_sections [("S", [Node.make "list" 0 "" []])]
        = [("S", MADRParser.SectionValue.text "")] :=
  ⟨⟨Node.make "list" 0 "" [], by simp, rfl⟩, rfl⟩

/-- C3 (amended): a bucket of the splitter is normalized to
`List(items)` exactly when the items collected from its direct `list`
nodes form a non-empty sequence (one string per list item, document order,
non-list nodes ignored); when that collection is empty — no list node, or
only list nodes with zero items — the value is `Text` of the newline-join
of the non-empty flattened texts, trimmed, so an empty bucket yields
`Text("")`. -/
theorem section_value_decided_by_collected_items
    (raw : List (String × List Node)) (name : String) (nodes : List Node)
    (h : MADRParser.lookupMap raw name = some nodes) :
    (MADRParser.collectItems nodes ≠ [] →
      MADRParser.lookupMap (MADRParser.normalize_sections raw) name
        = some (MADRParser.SectionValue.list
            (MADRParser.collectItems nodes)))
    ∧ (MADRParser.collectItems nodes = [] →
      MADRParser.lookupMap (MADRParser.normalize_sections raw) name
        = some (MADRParser.SectionValue.text
            (MADRParser.extract_nodes_text nodes))) := by
  constructor <;> intro hc <;>
    rw [MADRParser.lookupMap_normalize, h] <;>
    simp [MADRParser.normalizeBucket, MADRParser.extract_list, hc]

/-- Witness for C3 (amended): a bucket with one bullet list and one
paragraph is classified as a list, the paragraph ignored. -/
theorem section_value_decided_by_collected_items_witness :
    MADRParser.lookupMap
        (MADRParser.normalize_sections
          [("S", [ulist ["x"], para [txt "p"]])]) "S"
      = some (MADRParser.SectionValue.list ["x"]) := by
  have h := (section_value_decided_by_collected_items
    [("S", [ulist ["x"], para [txt "p"]])] "S"
    [ulist ["x"], para [txt "p"]] rfl).1 (by decide)
  exact h.trans (by decide)

/-- C4 (counterexample): text flattening strips at inner recursion levels
too, not only at the top level: on a paragraph holding an emphasis node
with text " a " followed by the plain text " b ", the code yields "a b"
while the claimed top-level-only stripping yields "a  b". -/
theorem extract_text_inner_strip_cex :
    MADRParser.extract_text
        (para [Node.make "strong" 0 "" [txt " a "], txt " b "]) = "a b"
    ∧ flatten_claimed
        (para [Node.make "strong" 0 "" [txt " a "], txt " b "]) = "a  b"
    ∧ MADRParser.extract_text
        (para [Node.make "strong" 0 "" [txt " a "], txt " b "])
      ≠ flatten_claimed
          (para [Node.make "strong" 0 "" [txt " a "], txt " b "]) :=
  ⟨by decide, by decide, by decide⟩

/-- C4 (amended): a childless node contributes its raw stored string
(empty if none), and a node with children yields the depth-first
concatenation of the flattened texts of its children — each inner level
already stripped by its own recursive call — stripped again at this
level, so stripping happens at every recursion level with children,
not at the top level only. -/
theorem extract_text_strips_at_every_level (t : String) (l : Nat)
    (r : String) (cs : List Node) :
    (cs = [] → MADRParser.extract_text (Node.make t l r cs) = r)
    ∧ (cs ≠ [] → MADRParser.extract_text (Node.make t l r cs)
        = MADRParser.strip
            (String.join (cs.map MADRParser.extract_text))) := by
  constructor
  · intro hc
    subst hc
    rfl
  · intro hc
    cases cs with
    | nil => exact absurd rfl hc
    | cons c cs =>
      show MADRParser.strip
          (MADRParser.extract_text c
            ++ MADRParser.extract_text_nl (NodeList.ofList cs)) = _
      rw [MADRParser.extract_text_nl_ofList, List.map_cons,
        String.join_eq, String.join_eq]
      rfl

/-- Witness for C4 (amended) at a concrete two-level node. -/
theorem extract_text_strips_at_every_level_witness :
    MADRParser.extract_text
        (Node.make "paragraph" 0 "ignored raw"
          [Node.make "strong" 0 "" [txt " a "], txt " b "])
      = MADRParser.strip
          (String.join
            ([Node.make "strong" 0 "" [txt " a "], txt " b "].map
              MADRParser.extract_text)) :=
  (extract_text_strips_at_every_level "paragraph" 0 "ignored raw"
    [Node.make "strong" 0 "" [txt " a "], txt " b "]).2 (by simp)

/-- C8 (counterexample): on the sample document, `decision_consequences`
is the empty string, not the two "Good, because…" bullets: the
"Consequences" heading is level-3, so it never forms a level-2 section
and the lookup under the consequences label defaults to `""`. -/
theorem sample_decision_consequences_not_bullets :
    (MADRParser.parse sampleAst).map
        MADRParser.MADRRecord.decision_consequences = some ""
    ∧ ("" : String)
      ≠ "Good, because tests are more readable\nGood, because more easy to write tests" :=
  ⟨by decide, by decide⟩

/-- C8 (amended): end-to-end on the sample document, the title, the three
considered options and the two Hamcrest bullets are extracted as claimed;
`decision_consequences` however is `""` — the two consequence bullets
surface in `decision_outcome` instead, because the level-3 "Consequences"
heading is content of the "Decision Outcome" section. -/
theorem sample_document_end_to_end :
    (MADRParser.parse sampleAst).map MADRParser.MADRRecord.title
      = some "Use Plain JUnit5 for advanced test assertions"
    ∧ (MADRParser.parse sampleAst).map
        MADRParser.MADRRecord.considered_options
      = some (some ["Plain JUnit5", "Hamcrest", "AssertJ"])
    ∧ (MADRParser.parse sampleAst).map
        MADRParser.MADRRecord.decision_consequences = some ""
    ∧ (MADRParser.parse sampleAst).map
        MADRParser.MADRRecord.decision_outcome
      = some "Good, because tests are more readable\nGood, because more easy to write tests"
    ∧ (MADRParser.parse sampleAst).map (fun r =>
        r.options_pros_and_cons.map (fun m =>
          MADRParser.lookupMap m "Hamcrest"))
      = some (some (some
          ["Good, because offers advanced matchers",
           "Bad, because not full fluent API"])) :=
  ⟨by decide, by decide, by decide, by decide, by decide⟩

/-- C9: a level-2 heading with empty flattened text flushes the previous
section as usual but activates nothing: until the next level-2 heading
every node is discarded (the state behaves exactly like "no active
section"), and the empty string is never a key of the sections map of any
document. -/
theorem empty_heading_never_forms_section (h : Node) (mid rest : List Node)
    (cur : String) (buf : List Node) (secs : List (String × List Node))
    (hh : h.ntype = "heading") (hl : h.level = 2)
    (ht : MADRParser.extract_text h = "")
    (hmid : ∀ n ∈ mid, ¬ (n.ntype = "heading" ∧ n.level = 2)) :
    MADRParser.sectionsLoop (h :: (mid ++ rest)) cur buf secs
      = MADRParser.sectionsLoop rest "" []
          (MADRParser.flushSection secs cur buf)
    ∧ (MADRParser.lookupMap secs "" = none
       → MADRParser.lookupMap
           (MADRParser.sectionsLoop (h :: (mid ++ rest)) cur buf secs) ""
         = none)
    ∧ MADRParser.lookupMap
        (MADRParser.extract_sections (h :: (mid ++ rest))) "" = none := by
  have hstep : MADRParser.sectionsLoop (h :: (mid ++ rest)) cur buf secs
      = MADRParser.sectionsLoop (mid ++ rest) (MADRParser.extract_text h)
          [] (MADRParser.flushSection secs cur buf) := by
    simp [MADRParser.sectionsLoop, hh, hl]
  refine ⟨?_, ?_, ?_⟩
  · rw [hstep, ht,
      MADRParser.sections_skip_when_inactive mid rest [] _ hmid]
  · intro hsecs
    exact MADRParser.sections_no_empty_key _ cur buf secs hsecs
  · unfold MADRParser.extract_sections MADRParser.sectionsRaw
    rw [MADRParser.lookupMap_normalize,
      MADRParser.sections_no_empty_key _ "" [] [] rfl]
    rfl

/-- Witness for C9 at a concrete document state. -/
theorem empty_heading_never_forms_section_witness :
    MADRParser.sectionsLoop
        (hdg 2 "" :: ([para [txt "dropped"]]
          ++ [hdg 2 "Next", para [txt "kept"]]))
        "Prev" [para [txt "buf"]] []
      = MADRParser.sectionsLoop [hdg 2 "Next", para [txt "kept"]] "" []
          (MADRParser.flushSection [] "Prev" [para [txt "buf"]])
    ∧ MADRParser.lookupMap
        (MADRParser.extract_sections
          (hdg 2 "" :: ([para [txt "dropped"]]
            ++ [hdg 2 "Next", para [txt "kept"]]))) "" = none := by
  have h := empty_heading_never_forms_section (hdg 2 "")
    [para [txt "dropped"]] [hdg 2 "Next", para [txt "kept"]]
    "Prev" [para [txt "buf"]] [] rfl rfl (by decide) (by decide)
  exact ⟨h.1, h.2.2⟩

/-- C10 (counterexample): with two sections named by the pros-and-cons
label, the last-wins overwrite does hold for the sections map, but the
earlier section still contributes to the returned record: option "A" and
its bullet "x" live only in the first occurrence, whose bucket is gone
from the sections map, yet they appear in `options_pros_and_cons`. -/
theorem duplicate_pros_cons_earlier_content_cex :
    MADRParser.lookupMap (MADRParser.sectionsRaw dupSectionAst)
        "Pros and Cons of the Options" = some [hdg 3 "B", ulist ["y"]]
    ∧ (MADRParser.parse dupSectionAst).map
        MADRParser.MADRRecord.options_pros_and_cons
      = some (some [("A", ["x"]), ("B", ["y"])]) :=
  ⟨rfl, by decide⟩

/-- C10 (amended): when several level-2 headings share the same non-empty
flattened text, the sections-map entry for that name is computed solely
from the bucket of the last occurrence (the nodes up to the next level-2
heading or the end of the document) — both raw and after normalization —
whatever sections precede or follow it; so every field derived from the
sections map sees only the last same-named section. The pros-and-cons
field, built by a separate scan, is exempt from this last-wins rule. -/
theorem last_duplicate_section_wins (a c rest : List Node) (h : Node)
    (hh : h.ntype = "heading") (hl : h.level = 2)
    (hne : MADRParser.extract_text h ≠ "")
    (hc : ∀ n ∈ c, ¬ (n.ntype = "heading" ∧ n.level = 2))
    (hrest : ∀ n ∈ rest, n.ntype = "heading" → n.level = 2
      → MADRParser.extract_text n ≠ MADRParser.extract_text h)
    (hbd : rest = [] ∨ ∃ b tail, rest = b :: tail
      ∧ b.ntype = "heading" ∧ b.level = 2) :
    MADRParser.lookupMap
        (MADRParser.sectionsRaw (a ++ h :: (c ++ rest)))
        (MADRParser.extract_text h) = some c
    ∧ MADRParser.lookupMap
        (MADRParser.extract_sections (a ++ h :: (c ++ rest)))
        (MADRParser.extract_text h)
      = some (MADRParser.normalizeBucket c) := by
  have hr := MADRParser.sections_last_wins h c rest hh hl hne hc hrest hbd
    a "" [] []
  refine ⟨hr, ?_⟩
  unfold MADRParser.extract_sections
  rw [MADRParser.lookupMap_normalize]
  unfold MADRParser.sectionsRaw at hr ⊢
  rw [hr]
  rfl

/-- Witness for C10 (amended): two sections named "S" followed by a
further section "T"; the entry of "S" is the bucket of the second "S"
occurrence only. -/
theorem last_duplicate_section_wins_witness :
    MADRParser.lookupMap
        (MADRParser.sectionsRaw
          ([hdg 2 "S", para [txt "old"]]
            ++ hdg 2 "S" :: ([para [txt "new"]]
              ++ [hdg 2 "T", para [txt "tail"]])))
        (MADRParser.extract_text (hdg 2 "S")) = some [para [txt "new"]]
    ∧ MADRParser.lookupMap
        (MADRParser.extract_sections
          ([hdg 2 "S", para [txt "old"]]
            ++ hdg 2 "S" :: ([para [txt "new"]]
              ++ [hdg 2 "T", para [txt "tail"]])))
        (MADRParser.extract_text (hdg 2 "S"))
      = some (MADRParser.normalizeBucket [para [txt "new"]]) :=
  last_duplicate_section_wins [hdg 2 "S", para [txt "old"]]
    [para [txt "new"]] [hdg 2 "T", para [txt "tail"]] (hdg 2 "S")
    rfl rfl (by decide) (by decide) (by decide)
    (Or.inr ⟨hdg 2 "T", [para [txt "tail"]], rfl, rfl, rfl⟩)
